import Mathlib

/-!
Verification of the per-frame detection-and-decoding pipeline of
`SCRIPTS_2020/Bup/Decode_videos.py`.

Shallow embedding conventions:
* `float32` / `float64` values are modelled as exact rationals (`ℚ`);
  the only genuinely transcendental operation (`np.arctan2`) is modelled
  over `ℝ`.
* Contour points (`int32` pixel coordinates) are modelled as `Int × Int`.
* OpenCV primitives whose numerics are outside the decoded logic
  (`cv2.arcLength`, `cv2.approxPolyDP`, `cv2.isContourConvex`, and the
  perspective-warp/`resize` patch extraction) are uninterpreted parameters
  of the pipeline, gathered in `CVPrims`.
* NumPy float semantics that matter to the claims (NaN from 0/0 division,
  NaN-propagating `np.max`, first-occurrence `np.argmax`) are modelled by
  the tagged type `FVal`.
-/

namespace Decode

/-- A 2-D float point (the `float32` points of the script, modelled exactly). -/
abbrev Pt : Type := ℚ × ℚ

/-- A 2-D integer contour point (`int32` pixel coordinates). -/
abbrev IPt : Type := Int × Int

/-- Squared Euclidean distance.  `order_points` compares Euclidean
distances (`dist.cdist(..., "euclidean")`); since `Real.sqrt` is strictly
monotone on nonnegative arguments, comparing squared distances is
equivalent and keeps the definition inside `ℚ`. -/
def sqDist (p q : Pt) : ℚ :=
  (p.1 - q.1) * (p.1 - q.1) + (p.2 - q.2) * (p.2 - q.2)

/-- Stable sort of the points by x-coordinate:
`pts[np.argsort(pts[:, 0]), :]`.  NumPy's argsort on a 4-element array is
an insertion sort, which is stable, so `List.insertionSort` by `≤` on the
first coordinate is the exact model. -/
def sortByX (l : List Pt) : List Pt :=
  List.insertionSort (fun p q : Pt => p.1 ≤ q.1) l

/-- `order_points` (Decode_videos.py lines 135-160).

Sorts the 4 points by x; the two left-most points sorted by y give
`(tl, bl)`; of the two right-most points, the one farther from `tl` is
`br` and the nearer is `tr`.  A distance tie resolves to
`(br, tr) = (right[1], right[0])` because `np.argsort(D)` is stable and
the result is reversed (`[::-1]`).  The function is only ever called on
arrays of exactly 4 points; other lengths fall through unchanged. -/
def order_points (pts : List Pt) : List Pt :=
  match sortByX pts with
  | [p0, p1, p2, p3] =>
    let tlbl := if p0.2 ≤ p1.2 then (p0, p1) else (p1, p0)
    let tl := tlbl.1
    let bl := tlbl.2
    let brtr := if sqDist tl p2 ≤ sqDist tl p3 then (p3, p2) else (p2, p3)
    [tl, brtr.2, brtr.1, bl]
  | other => other

instance : IsTotal Pt (fun p q : Pt => p.1 ≤ q.1) :=
  ⟨fun a b => le_total a.1 b.1⟩

instance : IsTrans Pt (fun p q : Pt => p.1 ≤ q.1) :=
  ⟨fun _ _ _ h h2 => le_trans h h2⟩

lemma sortByX_sorted (l : List Pt) :
    (sortByX l).Sorted (fun p q : Pt => p.1 ≤ q.1) :=
  List.sorted_insertionSort _ l

lemma sortByX_perm (l : List Pt) : (sortByX l).Perm l :=
  List.perm_insertionSort _ l

/-- Two sorted lists that are permutations of each other and whose
x-coordinates are pairwise distinct are equal. -/
lemma sorted_perm_eq (l₁ : List Pt) :
    ∀ l₂ : List Pt, l₁.Perm l₂ →
      l₁.Sorted (fun p q : Pt => p.1 ≤ q.1) →
      l₂.Sorted (fun p q : Pt => p.1 ≤ q.1) →
      (l₁.map Prod.fst).Nodup → l₁ = l₂ := by
  induction l₁ with
  | nil =>
    intro l₂ hp _ _ _
    exact (hp.symm.eq_nil).symm
  | cons a t ih =>
    intro l₂ hp hs₁ hs₂ hnd
    cases l₂ with
    | nil => exact absurd hp.eq_nil (by simp)
    | cons b s =>
      have hmem_a : a ∈ b :: s := hp.subset (by simp)
      have hmem_b : b ∈ a :: t := hp.symm.subset (by simp)
      have hs₁' := List.sorted_cons.mp hs₁
      have hs₂' := List.sorted_cons.mp hs₂
      have hnd' := List.nodup_cons.mp (by simpa only [List.map_cons] using hnd)
      have hab : a = b := by
        rcases List.mem_cons.mp hmem_a with h | h
        · exact h
        rcases List.mem_cons.mp hmem_b with h2 | h2
        · exact h2.symm
        have hba : b.1 ≤ a.1 := hs₂'.1 a h
        have hab' : a.1 ≤ b.1 := hs₁'.1 b h2
        have hne : a.1 ≠ b.1 := by
          intro he
          exact hnd'.1 (he ▸ List.mem_map_of_mem Prod.fst h2)
        exact absurd (le_antisymm hab' hba) hne
      subst hab
      have hp' : t.Perm s := (List.perm_cons a).mp hp
      rw [ih s hp' hs₁'.2 hs₂'.2 hnd'.2]

/-- `order_points` returns a permutation of its (4-point) input. -/
lemma order_points_perm (l : List Pt) : (order_points l).Perm l := by
  have hp := sortByX_perm l
  unfold order_points
  rcases hs : sortByX l with _ | ⟨p0, _ | ⟨p1, _ | ⟨p2, _ | ⟨p3, _ | rest⟩⟩⟩⟩ <;>
    rw [hs] at hp <;> simp only []
  · exact hp
  · exact hp
  · exact hp
  · exact hp
  · refine List.Perm.trans ?_ hp
    by_cases h1 : p0.2 ≤ p1.2
    · simp only [if_pos h1]
      by_cases h2 : sqDist p0 p2 ≤ sqDist p0 p3
      · simp only [if_pos h2]
        exact List.Perm.cons p0 (@List.perm_append_comm _ [p2, p3] [p1])
      · simp only [if_neg h2]
        exact List.Perm.cons p0 ((List.reverse_perm [p1, p2, p3]))
    · simp only [if_neg h1]
      by_cases h2 : sqDist p1 p2 ≤ sqDist p1 p3
      · simp only [if_pos h2]
        exact @List.perm_append_comm _ [p1, p2, p3] [p0]
      · simp only [if_neg h2]
        refine List.Perm.trans (@List.perm_append_comm _ [p1, p3, p2] [p0]) ?_
        exact List.Perm.cons p0 (List.Perm.cons p1 (List.Perm.swap p2 p3 []))
  · exact hp

/-- If two inputs x-sort to the same list, `order_points` treats them
identically. -/
lemma order_points_eq_of_sort_eq {l m : List Pt} (h : sortByX l = sortByX m) :
    order_points l = order_points m := by
  unfold order_points
  rw [h]

/-- C4 (counterexample).  The claim "order_points is idempotent on every
valid (convex, non-self-intersecting, 4-point) quadrilateral in canonical
order" is false: for the convex parallelogram with vertices
(0,0), (1,0), (2,1), (1,1) — two of which share the x-coordinate 1 —
`order_points` maps the array `[(0,0),(1,1),(2,1),(1,0)]` to the
canonical-order array `[(0,0),(1,0),(2,1),(1,1)]`, and maps that
canonical array to a different array, so re-canonicalizing does not
return it unchanged. -/
theorem C4_counterexample :
    order_points [((0 : ℚ), (0 : ℚ)), (1, 1), (2, 1), (1, 0)] =
        [((0 : ℚ), (0 : ℚ)), (1, 0), (2, 1), (1, 1)] ∧
      order_points [((0 : ℚ), (0 : ℚ)), (1, 0), (2, 1), (1, 1)] ≠
        [((0 : ℚ), (0 : ℚ)), (1, 0), (2, 1), (1, 1)] := by
  constructor <;>
    norm_num [order_points, sortByX, sqDist, List.insertionSort,
      List.orderedInsert]

/-- C4 (amended).  `order_points` is idempotent on every 4-point array
whose x-coordinates are pairwise distinct: re-canonicalizing an
already-canonical (i.e. previously `order_points`-ed) array returns it
unchanged.  (With repeated x-coordinates the stable x-sort can split the
points into left/right pairs differently on the second pass, and
idempotence can fail, as `C4_counterexample` shows.) -/
theorem C4_order_points_idem (l : List Pt)
    (hx : (l.map Prod.fst).Nodup) :
    order_points (order_points l) = order_points l := by
  have hp1 : (order_points l).Perm l := order_points_perm l
  have hkey : sortByX (order_points l) = sortByX l := by
    apply sorted_perm_eq
    · exact (sortByX_perm _).trans (hp1.trans (sortByX_perm l).symm)
    · exact sortByX_sorted _
    · exact sortByX_sorted _
    · have hmap : ((sortByX (order_points l)).map Prod.fst).Perm (l.map Prod.fst) :=
        ((sortByX_perm _).trans hp1).map _
      exact hmap.nodup_iff.mpr hx
  exact order_points_eq_of_sort_eq hkey

/-- Witness for `C4_order_points_idem` at a concrete quadrilateral with
pairwise distinct x-coordinates. -/
theorem C4_witness :
    (([((0 : ℚ), (0 : ℚ)), (10, 0), (11, 5), (1, 4)] : List Pt).map Prod.fst).Nodup ∧
      order_points (order_points [((0 : ℚ), (0 : ℚ)), (10, 0), (11, 5), (1, 4)]) =
        order_points [((0 : ℚ), (0 : ℚ)), (10, 0), (11, 5), (1, 4)] :=
  ⟨by norm_num, C4_order_points_idem _ (by norm_num)⟩

/-! ## Correlation matching (`corr2_coeff`, lines 162-172 and 457-464) -/

/-- A flattened pattern / patch row (NumPy float row, modelled exactly). -/
abbrev Vec : Type := List ℚ

/-- Row mean: `A.mean(1)`. -/
def vmean (v : Vec) : ℚ := v.sum / v.length

/-- Row with its mean subtracted: `np.subtract(A, A.mean(1)[:, None])`. -/
def center (v : Vec) : Vec := v.map (fun x => x - vmean v)

/-- Dot product of two rows (`np.dot` of a row pair). -/
def dot (a b : Vec) : ℚ := (List.zipWith (fun x y => x * y) a b).sum

/-- Sum of squares across a centered row: `ssA = np.square(A_mA).sum(1)`. -/
def ss (v : Vec) : ℚ := dot (center v) (center v)

/-- Numerator of the Pearson coefficient: `np.dot(A_mA, B_mB.T)` for one
row pair. -/
def corrNum (a b : Vec) : ℚ := dot (center a) (center b)

/-- The product `ssA * ssB` under the square root of `corr2_coeff`. -/
def corrDen (a b : Vec) : ℚ := ss a * ss b

/-- A NumPy float intermediate that is either NaN or an exact value. -/
inductive FVal : Type
  | nan : FVal
  | val : ℚ → FVal
deriving DecidableEq

/-- `corr2_coeff` computes the Pearson coefficient
`r = corrNum / sqrt(corrDen)`; when `corrDen = 0` the numerator is also 0
and NumPy's `0/0` division yields NaN (a runtime warning, not an
exception).  Since `sqrt` leaves ℚ, the value is carried through the
strictly monotone bijection `x ↦ x * |x|` of ℝ:
`key = r * |r| = corrNum * |corrNum| / corrDen`.  Every comparison the
script performs on correlations (`np.max`, `np.argmax`, `> 0.8`) is
invariant under this encoding; the threshold 0.8 corresponds to
key 16/25, and `r = 1` to key 1. -/
def corr2_key (a b : Vec) : FVal :=
  if corrDen a b = 0 then .nan
  else .val (corrNum a b * |corrNum a b| / corrDen a b)

/-- `np.maximum` on floats: NaN propagates. -/
def fmax : FVal → FVal → FVal
  | _, .nan => .nan
  | .nan, .val _ => .nan
  | .val a, .val b => .val (max a b)

/-- `np.max`: a `maximum` reduction, hence NaN-propagating.  (`np.max` of
an empty array raises; the script never takes the max of an empty
correlation column, so the `[]` case is arbitrary.) -/
def npMax : List FVal → FVal
  | [] => .nan
  | x :: xs => xs.foldl fmax x

/-- Does a candidate strictly beat the running maximum in `np.argmax`'s
scan?  NaN is treated as maximal, first occurrence kept. -/
def fBeats : FVal → FVal → Bool
  | _, .nan => false
  | .nan, .val _ => true
  | .val c, .val m => decide (m < c)

/-- Scan underlying `np.argmax`. -/
def argmaxGo : List FVal → FVal → Nat → Nat → Nat
  | [], _, _, best => best
  | x :: xs, m, i, best =>
    if fBeats x m then argmaxGo xs x (i + 1) i else argmaxGo xs m (i + 1) best

/-- `np.argmax`: index of the first occurrence of the maximum. -/
def npArgmax : List FVal → Nat
  | [] => 0
  | x :: xs => argmaxGo xs x 1 0

/-- The acceptance test `best_value > 0.8` with NumPy float semantics
(false when `best_value` is NaN); the threshold argument is given on the
key scale, so the script's `0.8` becomes `16/25`. -/
def fgtKey : FVal → ℚ → Bool
  | .nan, _ => false
  | .val k, t => decide (t < k)

/-- Lines 457-462: the correlation column of every stored barcode row
against the candidate patch, with its `np.max` and `np.argmax`. -/
def matchBest (barcodes : List Vec) (cand : Vec) : FVal × Nat :=
  let correlation := barcodes.map (fun b => corr2_key b cand)
  (npMax correlation, npArgmax correlation)

lemma dot_cons (x y : ℚ) (xs ys : Vec) :
    dot (x :: xs) (y :: ys) = x * y + dot xs ys := by
  simp [dot]

lemma dot_self_nonneg (v : Vec) : 0 ≤ dot v v := by
  induction v with
  | nil => simp [dot]
  | cons x xs ih =>
    rw [dot_cons]
    nlinarith [mul_self_nonneg x]

/-- Discrete Cauchy-Schwarz for the list dot product. -/
lemma dot_sq_le (a : Vec) : ∀ b : Vec, dot a b ^ 2 ≤ dot a a * dot b b := by
  induction a with
  | nil => intro b; simp [dot]
  | cons x xs ih =>
    intro b
    cases b with
    | nil =>
      simp only [dot, List.zipWith_nil_right, List.sum_nil]
      simp
    | cons y ys =>
      rw [dot_cons, dot_cons, dot_cons]
      have hA := dot_self_nonneg xs
      have hB := dot_self_nonneg ys
      have hih := ih ys
      set S := dot xs ys with hS
      set A := dot xs xs with hAd
      set B := dot ys ys with hBd
      rcases eq_or_lt_of_le hB with hB0 | hBpos
      · have hSz : S = 0 := by
          have h1 : S ^ 2 ≤ 0 := by rw [← hB0] at hih; linarith [hih]
          have h2 : 0 ≤ S ^ 2 := sq_nonneg S
          exact sq_eq_zero_iff.mp (le_antisymm h1 h2)
        rw [hSz, ← hB0]
        nlinarith [mul_nonneg hA (sq_nonneg y)]
      · have hkey : B * ((x * x + A) * (y * y + B) - (x * y + S) ^ 2) =
            (x * B - y * S) ^ 2 + (y * y + B) * (A * B - S ^ 2) := by ring
        have hN : 0 ≤ (x * B - y * S) ^ 2 + (y * y + B) * (A * B - S ^ 2) :=
          add_nonneg (sq_nonneg _)
            (mul_nonneg (add_nonneg (mul_self_nonneg y) (le_of_lt hBpos))
              (sub_nonneg.mpr hih))
        nlinarith [hkey, hN, hBpos]

lemma ss_nonneg (v : Vec) : 0 ≤ ss v := dot_self_nonneg (center v)

/-- An exactly matching row correlates at (real) 1, i.e. key 1. -/
lemma corr2_key_self (v : Vec) (h : ss v ≠ 0) : corr2_key v v = .val 1 := by
  have hpos : 0 < ss v := lt_of_le_of_ne (ss_nonneg v) (Ne.symm h)
  have hnum : corrNum v v = ss v := rfl
  have hden : corrDen v v ≠ 0 := by
    unfold corrDen
    exact ne_of_gt (mul_pos hpos hpos)
  unfold corr2_key
  rw [if_neg hden, hnum]
  congr 1
  rw [abs_of_pos hpos]
  unfold corrDen
  field_simp

/-- Every correlation against a non-constant candidate from a
non-constant row is a number and at most the key of 1 (Cauchy-Schwarz). -/
lemma corr2_key_le_one (b c : Vec) (hb : ss b ≠ 0) (hc : ss c ≠ 0) :
    ∃ q, corr2_key b c = .val q ∧ q ≤ 1 := by
  have hbpos : 0 < ss b := lt_of_le_of_ne (ss_nonneg b) (Ne.symm hb)
  have hcpos : 0 < ss c := lt_of_le_of_ne (ss_nonneg c) (Ne.symm hc)
  have hdenpos : 0 < corrDen b c := mul_pos hbpos hcpos
  have hden : corrDen b c ≠ 0 := ne_of_gt hdenpos
  refine ⟨corrNum b c * |corrNum b c| / corrDen b c, by simp [corr2_key, hden], ?_⟩
  have hcs : corrNum b c ^ 2 ≤ corrDen b c := dot_sq_le (center b) (center c)
  rcases le_or_lt (corrNum b c) 0 with hn | hn
  · have hnp : corrNum b c * |corrNum b c| ≤ 0 :=
      mul_nonpos_of_nonpos_of_nonneg hn (abs_nonneg _)
    exact le_trans (div_nonpos_of_nonpos_of_nonneg hnp (le_of_lt hdenpos)) one_pos.le
  · rw [abs_of_pos hn, div_le_one hdenpos]
    nlinarith [hcs]

lemma foldl_fmax_eq (M : ℚ) :
    ∀ (xs : List FVal) (a : ℚ), a ≤ M →
      (∀ x ∈ xs, ∃ q, x = .val q ∧ q ≤ M) →
      ((FVal.val M) ∈ xs ∨ a = M) →
      xs.foldl fmax (.val a) = .val M := by
  intro xs
  induction xs with
  | nil =>
    intro a _ _ hat
    rcases hat with h | h
    · exact absurd h (by simp)
    · simp [h]
  | cons x xs ih =>
    intro a ha hub hat
    obtain ⟨q, hq, hqM⟩ := hub x (by simp)
    subst hq
    have hstep : fmax (.val a) (.val q) = .val (max a q) := rfl
    rw [List.foldl_cons, hstep]
    refine ih (max a q) (max_le ha hqM) (fun y hy => hub y (by simp [hy])) ?_
    rcases hat with h | h
    · rcases List.mem_cons.mp h with h0 | h0
      · right
        have : q = M := by injection h0.symm
        simp [this, max_eq_right ha]
      · left; exact h0
    · right; simp [h, max_eq_left hqM]

lemma npMax_eq (l : List FVal) (M : ℚ)
    (hub : ∀ x ∈ l, ∃ q, x = .val q ∧ q ≤ M) (hat : (FVal.val M) ∈ l) :
    npMax l = .val M := by
  cases l with
  | nil => exact absurd hat (by simp)
  | cons x xs =>
    obtain ⟨q, hq, hqM⟩ := hub x (by simp)
    subst hq
    show xs.foldl fmax (.val q) = .val M
    refine foldl_fmax_eq M xs q hqM (fun y hy => hub y (by simp [hy])) ?_
    rcases List.mem_cons.mp hat with h0 | h0
    · right
      injection h0.symm
    · left; exact h0

lemma argmaxGo_stable (M : ℚ) :
    ∀ (xs : List FVal) (i best : Nat),
      (∀ x ∈ xs, ∃ q, x = .val q ∧ q ≤ M) →
      argmaxGo xs (.val M) i best = best := by
  intro xs
  induction xs with
  | nil => intro i best _; rfl
  | cons x xs ih =>
    intro i best hub
    obtain ⟨q, hq, hqM⟩ := hub x (by simp)
    subst hq
    have hnb : fBeats (.val q) (.val M) = false := by
      simp [fBeats, not_lt.mpr hqM]
    rw [argmaxGo, hnb]
    simp only [Bool.false_eq_true, if_false]
    exact ih (i + 1) best (fun y hy => hub y (by simp [hy]))

lemma argmaxGo_finds (M : ℚ) :
    ∀ (xs : List FVal) (a : ℚ) (i best : Nat), a < M →
      (∀ x ∈ xs, ∃ q, x = .val q ∧ q ≤ M) →
      (FVal.val M) ∈ xs →
      argmaxGo xs (.val a) i best =
        i + xs.findIdx (fun x => x = .val M) := by
  intro xs
  induction xs with
  | nil => intro a i best _ _ hat; exact absurd hat (by simp)
  | cons x xs ih =>
    intro a i best haM hub hat
    obtain ⟨q, hq, hqM⟩ := hub x (by simp)
    subst hq
    by_cases hqeq : q = M
    · subst hqeq
      have hb : fBeats (.val q) (.val a) = true := by simp [fBeats, haM]
      rw [argmaxGo, hb]
      simp only [if_true]
      rw [argmaxGo_stable q xs (i + 1) i (fun y hy => hub y (by simp [hy]))]
      have : (List.findIdx (fun x => x = .val q) (FVal.val q :: xs)) = 0 := by
        rw [List.findIdx_cons]
        simp
      rw [this]
      omega
    · have hat' : (FVal.val M) ∈ xs := by
        rcases List.mem_cons.mp hat with h0 | h0
        · exact absurd (by injection h0.symm) hqeq
        · exact h0
      have hfind : (List.findIdx (fun x => x = .val M) (FVal.val q :: xs)) =
          (List.findIdx (fun x => x = .val M) xs) + 1 := by
        rw [List.findIdx_cons]
        simp [hqeq]
      rw [argmaxGo, hfind]
      by_cases hbeat : fBeats (.val q) (.val a) = true
      · rw [hbeat]
        simp only [if_true]
        rw [ih q (i + 1) i (lt_of_le_of_ne hqM hqeq)
          (fun y hy => hub y (by simp [hy])) hat']
        omega
      · rw [Bool.not_eq_true] at hbeat
        rw [hbeat]
        simp only [Bool.false_eq_true, if_false]
        rw [ih a (i + 1) best haM (fun y hy => hub y (by simp [hy])) hat']
        omega

lemma getD_findIdx_eq (M : ℚ) :
    ∀ xs : List FVal, (FVal.val M) ∈ xs →
      xs.getD (xs.findIdx (fun x => x = FVal.val M)) .nan = .val M := by
  intro xs
  induction xs with
  | nil => intro h; exact absurd h (by simp)
  | cons x xs ih =>
    intro hmem
    rw [List.findIdx_cons]
    by_cases hx : x = FVal.val M
    · simp [hx]
    · rw [show (decide (x = FVal.val M)) = false from by simp [hx]]
      simp only [cond_false]
      rw [List.getD_cons_succ]
      apply ih
      rcases List.mem_cons.mp hmem with h | h
      · exact absurd h.symm hx
      · exact h

lemma getD_ne_of_lt_findIdx (M : ℚ) :
    ∀ (xs : List FVal) (j : Nat),
      j < xs.findIdx (fun x => x = FVal.val M) →
      xs.getD j .nan ≠ .val M := by
  intro xs
  induction xs with
  | nil =>
    intro j h
    rw [List.findIdx_nil] at h
    omega
  | cons x xs ih =>
    intro j h
    rw [List.findIdx_cons] at h
    by_cases hx : x = FVal.val M
    · rw [show (decide (x = FVal.val M)) = true from by simp [hx]] at h
      simp at h
    · rw [show (decide (x = FVal.val M)) = false from by simp [hx]] at h
      simp only [cond_false] at h
      cases j with
      | zero =>
        rw [List.getD_cons_zero]
        exact hx
      | succ k =>
        rw [List.getD_cons_succ]
        exact ih k (by omega)

/-- `np.argmax` returns the first index attaining the maximum `M` when
every element is a number bounded by `M` and some element attains it. -/
lemma npArgmax_spec (l : List FVal) (M : ℚ)
    (hub : ∀ x ∈ l, ∃ q, x = .val q ∧ q ≤ M) (hat : (FVal.val M) ∈ l) :
    l.getD (npArgmax l) .nan = .val M ∧
      ∀ j < npArgmax l, l.getD j .nan ≠ .val M := by
  cases l with
  | nil => exact absurd hat (by simp)
  | cons x xs =>
    obtain ⟨q, hq, hqM⟩ := hub x (by simp)
    subst hq
    by_cases hqeq : q = M
    · subst hqeq
      have h0 : npArgmax (FVal.val q :: xs) = 0 := by
        show argmaxGo xs (.val q) 1 0 = 0
        exact argmaxGo_stable q xs 1 0 (fun y hy => hub y (by simp [hy]))
      rw [h0]
      exact ⟨rfl, fun j hj => absurd hj (by omega)⟩
    · have hat' : (FVal.val M) ∈ xs := by
        rcases List.mem_cons.mp hat with h0 | h0
        · exact absurd (by injection h0.symm) hqeq
        · exact h0
      have hub' : ∀ x ∈ xs, ∃ r, x = .val r ∧ r ≤ M :=
        fun y hy => hub y (by simp [hy])
      have hmain : npArgmax (FVal.val q :: xs) =
          1 + xs.findIdx (fun x => x = .val M) := by
        show argmaxGo xs (.val q) 1 0 = _
        exact argmaxGo_finds M xs q 1 0 (lt_of_le_of_ne hqM hqeq) hub' hat'
      set f := xs.findIdx (fun x => x = .val M) with hf
      have hget : xs.getD f .nan = .val M := getD_findIdx_eq M xs hat'
      constructor
      · rw [hmain]
        have h1f : 1 + f = f + 1 := by omega
        rw [h1f, List.getD_cons_succ]
        exact hget
      · intro j hj
        rw [hmain] at hj
        cases j with
        | zero =>
          rw [List.getD_cons_zero]
          intro hcon
          exact hqeq (by injection hcon)
        | succ k =>
          rw [List.getD_cons_succ]
          exact getD_ne_of_lt_findIdx M xs k (by omega)

/-- C3.  When the candidate vector is exactly one of the stored pattern
rows (and the library has no constant rows, so no correlation is NaN),
the matcher's `np.max` is the key of correlation 1.0 and its `np.argmax`
is the smallest library index attaining that maximal correlation, which
is the index whose ID the script then emits (`IDs[best_index]`). -/
theorem C3_match_identical (barcodes : List Vec) (k : Nat)
    (hk : k < barcodes.length)
    (hnc : ∀ v ∈ barcodes, ss v ≠ 0) :
    (matchBest barcodes (barcodes.get ⟨k, hk⟩)).1 = .val 1 ∧
      (barcodes.map (fun b => corr2_key b (barcodes.get ⟨k, hk⟩))).getD
          (matchBest barcodes (barcodes.get ⟨k, hk⟩)).2 .nan = .val 1 ∧
      ∀ j < (matchBest barcodes (barcodes.get ⟨k, hk⟩)).2,
        (barcodes.map (fun b => corr2_key b (barcodes.get ⟨k, hk⟩))).getD
          j .nan ≠ .val 1 := by
  set cand := barcodes.get ⟨k, hk⟩ with hcand
  set corr := barcodes.map (fun b => corr2_key b cand) with hcorr
  have hcmem : cand ∈ barcodes := List.get_mem _ _ _
  have hcs : ss cand ≠ 0 := hnc cand hcmem
  have hub : ∀ x ∈ corr, ∃ q, x = .val q ∧ q ≤ 1 := by
    intro x hx
    rw [hcorr] at hx
    obtain ⟨b, hb, rfl⟩ := List.mem_map.mp hx
    exact corr2_key_le_one b cand (hnc b hb) hcs
  have hat : (FVal.val 1) ∈ corr := by
    rw [hcorr]
    exact List.mem_map.mpr ⟨cand, hcmem, corr2_key_self cand hcs⟩
  have hargs := npArgmax_spec corr 1 hub hat
  exact ⟨npMax_eq corr 1 hub hat, hargs.1, hargs.2⟩

/-- First stored row of the concrete witness library. -/
def v0W : Vec := [0, 1, 0, 1]

/-- Second stored row of the concrete witness library. -/
def v1W : Vec := [1, 0, 0, 1]

/-- A concrete two-row pattern library used by witnesses. -/
def barcodesW : List Vec := [v0W, v1W]

/-- Witness for `C3_match_identical`: matching the witness library's row 0
against itself yields maximal correlation key 1. -/
theorem C3_witness :
    (∀ v ∈ barcodesW, ss v ≠ 0) ∧
      (matchBest barcodesW (barcodesW.get ⟨0, by norm_num [barcodesW]⟩)).1 =
        .val 1 := by
  have hnc : ∀ v ∈ barcodesW, ss v ≠ 0 := by
    intro v hv
    fin_cases hv <;> norm_num [v0W, v1W, ss, center, vmean, dot]
  exact ⟨hnc, (C3_match_identical barcodesW 0 (by norm_num [barcodesW]) hnc).1⟩

/-! ## Per-contour processing (`run_decoder`, lines 377-514) -/

/-- 2-D cross product of integer points. -/
def cross (p q : IPt) : Int := p.1 * q.2 - p.2 * q.1

/-- Summed cross products of consecutive vertex pairs, closing the
polygon back to `first`. -/
def shoelaceAux (first : IPt) : IPt → List IPt → Int
  | last, [] => cross last first
  | prev, q :: rest => cross prev q + shoelaceAux first q rest

/-- `cv2.contourArea(cnt, True)`: the oriented (signed) area, half the
shoelace sum over the closed polygon. -/
def contourArea (cnt : List IPt) : ℚ :=
  match cnt with
  | [] => 0
  | p :: rest => (shoelaceAux p p rest : ℚ) / 2

/-- Lines 410-418: `edge_zero` counts every flattened coordinate (x and
y) at most `edge_thresh`; `edge_maxx` counts x-coordinates at least
`maxx_thresh`; `edge_maxy` counts y-coordinates at least `maxy_thresh`.
The contour survives only when all three counts are zero, i.e. exactly
when this predicate is `false`. -/
def touchesEdge (edgeThresh maxxThresh maxyThresh : Int) (cnt : List IPt) : Bool :=
  (cnt.any fun p => p.1 ≤ edgeThresh || p.2 ≤ edgeThresh) ||
    (cnt.any fun p => maxxThresh ≤ p.1) ||
    (cnt.any fun p => maxyThresh ≤ p.2)

/-- OpenCV primitives whose internal numerics are external to the decoded
logic; they are uninterpreted parameters of the pipeline.
`arcLength` is `cv2.arcLength(·, True)` (a Euclidean perimeter, an
irrational real in general, hence abstracted); `approxPolyDP` is
`cv2.approxPolyDP(cnt, eps, True)`; `extractPatch` is the composite
`cv2.getPerspectiveTransform` + `cv2.warpPerspective` (on the gray frame,
which the instance closes over) + `cv2.resize(..., INTER_AREA)` +
`reshape((1, flat_len))`, producing the 49-element candidate row. -/
structure CVPrims where
  arcLength : List IPt → ℚ
  approxPolyDP : List IPt → ℚ → List IPt
  isContourConvex : List IPt → Bool
  extractPatch : List Pt → Vec

/-- Conversion of a contour vertex to the float points fed to
`order_points`. -/
def ratPt (p : IPt) : Pt := ((p.1 : ℚ), (p.2 : ℚ))

/-- Line 425: `approx = cv2.approxPolyDP(cnt, 0.07 * peri_cnt, True)`. -/
def approxOf (cv : CVPrims) (cnt : List IPt) : List IPt :=
  cv.approxPolyDP cnt (7 / 100 * cv.arcLength cnt)

/-- Lines 445-448: the canonicalized corners of the simplified polygon. -/
def quadOf (cv : CVPrims) (cnt : List IPt) : List Pt :=
  order_points ((approxOf cv cnt).map ratPt)

/-- Lines 452-457: the flattened normalized patch for the candidate. -/
def patchOf (cv : CVPrims) (cnt : List IPt) : Vec :=
  cv.extractPatch (quadOf cv cnt)

/-- `best_value = np.max(correlation)` for the candidate. -/
def bestValueOf (cv : CVPrims) (barcodes : List Vec) (cnt : List IPt) : FVal :=
  (matchBest barcodes (patchOf cv cnt)).1

/-- `best_index = np.argmax(correlation)` for the candidate. -/
def bestIndexOf (cv : CVPrims) (barcodes : List Vec) (cnt : List IPt) : Nat :=
  (matchBest barcodes (patchOf cv cnt)).2

/-- Lines 403-418: vertex-count, raw-area-band and frame-edge guards on
the raw contour (`edge_thresh = 1`). -/
def passesPrefilter (imgW imgH : Int) (cnt : List IPt) : Prop :=
  4 ≤ cnt.length ∧
    (-10 > contourArea cnt ∧ contourArea cnt > -2000) ∧
    touchesEdge 1 (imgW - 1) (imgH - 1) cnt = false

/-- Lines 429-440: guards on the simplified polygon: exactly 4 vertices,
its own oriented area in the same band, convexity, the raw perimeter
`peri_cnt` in (0, 500), and the ratio `peri_cnt / area` (raw perimeter
over raw contour area) in (-0.5, 0]. -/
def passesPolyFilter (cv : CVPrims) (cnt : List IPt) : Prop :=
  (approxOf cv cnt).length = 4 ∧
    (-10 > contourArea (approxOf cv cnt) ∧
      contourArea (approxOf cv cnt) > -2000) ∧
    cv.isContourConvex (approxOf cv cnt) = true ∧
    (0 < cv.arcLength cnt ∧ cv.arcLength cnt < 500) ∧
    (-(1 / 2) < cv.arcLength cnt / contourArea cnt ∧
      cv.arcLength cnt / contourArea cnt ≤ 0)

instance (imgW imgH : Int) (cnt : List IPt) :
    Decidable (passesPrefilter imgW imgH cnt) := by
  unfold passesPrefilter
  infer_instance

instance (cv : CVPrims) (cnt : List IPt) :
    Decidable (passesPolyFilter cv cnt) := by
  unfold passesPolyFilter
  infer_instance

/-- One emitted CSV row (line 513), minus the frame-global `msec` and
`frame_number` columns: `id`, `id_prob`, `x`, `y` and the orientation.
The orientation column is `angle(vector)`; the pre-`arctan2` vector is
stored so that the structure stays computable, and the angle itself is
`Detection.orientVec` fed to `angle` below. -/
structure Detection where
  id : Nat
  prob : FVal
  x : ℚ
  y : ℚ
  orientVec : Pt
deriving DecidableEq

/-- `np.mean([a, b], axis = 0)`: midpoint of two corners. -/
def midPt (a b : Pt) : Pt := ((a.1 + b.1) / 2, (a.2 + b.2) / 2)

/-- `pts.mean(0)`: coordinate-wise mean of the corner array. -/
def ptsMean (l : List Pt) : Pt :=
  ((l.map Prod.fst).sum / l.length, (l.map Prod.snd).sum / l.length)

/-- Lines 462-513 for an accepted candidate: ID lookup, centroid,
rotation-indexed reference edge, in-place y negation of `edge` and
`centroid`, the orientation vector, and the written x/y columns
(`centroid[0] + pt1[0]`, `centroid[1] + pt1[1]` — note that
`centroid[1]` has already been negated in place at this point). -/
def detectionOf (cv : CVPrims) (barcodes : List Vec) (ids : List Nat)
    (pt1 : Pt) (cnt : List IPt) : Detection :=
  let pts := quadOf cv cnt
  let tl := pts.getD 0 (0, 0)
  let tr := pts.getD 1 (0, 0)
  let br := pts.getD 2 (0, 0)
  let bl := pts.getD 3 (0, 0)
  let bestIndex := bestIndexOf cv barcodes cnt
  let tagId := ids.getD bestIndex 0
  let centroid := ptsMean pts
  let rotateTest := bestIndex % 4
  let edge :=
    if rotateTest = 3 then midPt tl tr
    else if rotateTest = 0 then midPt tl bl
    else if rotateTest = 1 then midPt br bl
    else midPt br tr
  let edge2 : Pt := (edge.1, -edge.2)
  let centroid2 : Pt := (centroid.1, -centroid.2)
  let vector : Pt := (edge2.1 - centroid2.1, edge2.2 - centroid2.2)
  { id := tagId
    prob := bestValueOf cv barcodes cnt
    x := centroid2.1 + pt1.1
    y := centroid2.2 + pt1.2
    orientVec := vector }

/-- Lines 399-514: processing of one contour of a frame.  Returns the
emitted detection record, or `none` when any guard rejects the
candidate (`imgW`/`imgH` are the cropped frame's width and height,
`pt1` the crop offset). -/
def processContour (cv : CVPrims) (barcodes : List Vec) (ids : List Nat)
    (imgW imgH : Int) (pt1 : Pt) (cnt : List IPt) : Option Detection :=
  if passesPrefilter imgW imgH cnt then
    if passesPolyFilter cv cnt then
      if fgtKey (bestValueOf cv barcodes cnt) (16 / 25) then
        some (detectionOf cv barcodes ids pt1 cnt)
      else none
    else none
  else none

/-- C6.  A contour any of whose vertices lies within `edge_thresh = 1`
pixels of the frame boundary (some coordinate at most 1, or x at least
width - 1, or y at least height - 1), or whose oriented area lies outside
the strict band (-2000, -10), never becomes a detection. -/
theorem C6_prefilter_rejects (cv : CVPrims) (barcodes : List Vec)
    (ids : List Nat) (imgW imgH : Int) (pt1 : Pt) (cnt : List IPt)
    (h : touchesEdge 1 (imgW - 1) (imgH - 1) cnt = true ∨
      ¬(-2000 < contourArea cnt ∧ contourArea cnt < -10)) :
    processContour cv barcodes ids imgW imgH pt1 cnt = none := by
  unfold processContour
  rw [if_neg]
  intro hp
  obtain ⟨-, ⟨ha1, ha2⟩, hedge⟩ := hp
  rcases h with h | h
  · rw [hedge] at h
    exact Bool.noConfusion h
  · exact h ⟨by linarith, by linarith⟩

/-- Witness for `C6_prefilter_rejects`: a square touching the frame
corner is dropped. -/
theorem C6_witness :
    processContour
      { arcLength := fun _ => 40
        approxPolyDP := fun c _ => c
        isContourConvex := fun _ => true
        extractPatch := fun _ => v0W }
      barcodesW [42, 43] 100 100 ((0 : ℚ), (0 : ℚ))
      [(0, 0), (0, 10), (10, 10), (10, 0)] = none :=
  C6_prefilter_rejects _ _ _ _ _ _ _ (Or.inl (by decide))

/-- C7.  A candidate whose simplified polygon fails any of the
polygon-stage conditions — exactly 4 vertices, convexity, its own
oriented area strictly inside (-2000, -10), the (raw contour) perimeter
strictly inside (0, 500), or the perimeter-to-raw-area ratio inside
(-0.5, 0] — yields no detection. -/
theorem C7_polyfilter_rejects (cv : CVPrims) (barcodes : List Vec)
    (ids : List Nat) (imgW imgH : Int) (pt1 : Pt) (cnt : List IPt)
    (h : ¬((approxOf cv cnt).length = 4 ∧
      (-10 > contourArea (approxOf cv cnt) ∧
        contourArea (approxOf cv cnt) > -2000) ∧
      cv.isContourConvex (approxOf cv cnt) = true ∧
      (0 < cv.arcLength cnt ∧ cv.arcLength cnt < 500) ∧
      (-(1 / 2) < cv.arcLength cnt / contourArea cnt ∧
        cv.arcLength cnt / contourArea cnt ≤ 0))) :
    processContour cv barcodes ids imgW imgH pt1 cnt = none := by
  unfold processContour
  by_cases h1 : passesPrefilter imgW imgH cnt
  · rw [if_pos h1, if_neg]
    exact fun hp => h hp
  · rw [if_neg h1]

/-- Witness for `C7_polyfilter_rejects`: an approxPolyDP stub returning a
triangle (3 vertices) forces rejection. -/
theorem C7_witness :
    processContour
      { arcLength := fun _ => 40
        approxPolyDP := fun _ _ => [(5, 5), (5, 15), (15, 15)]
        isContourConvex := fun _ => true
        extractPatch := fun _ => v0W }
      barcodesW [42, 43] 100 100 ((0 : ℚ), (0 : ℚ))
      [(5, 5), (5, 15), (15, 15), (15, 5)] = none :=
  C7_polyfilter_rejects _ _ _ _ _ _ _ (by
    intro hcon
    have := hcon.1
    simp [approxOf] at this)

lemma gate_true_of_some (cv : CVPrims) (barcodes : List Vec)
    (ids : List Nat) (imgW imgH : Int) (pt1 : Pt) (cnt : List IPt)
    (d : Detection)
    (hd : processContour cv barcodes ids imgW imgH pt1 cnt = some d) :
    fgtKey (bestValueOf cv barcodes cnt) (16 / 25) = true := by
  unfold processContour at hd
  split_ifs at hd with h1 h2 h3
  · exact h3

lemma none_of_gate_false (cv : CVPrims) (barcodes : List Vec)
    (ids : List Nat) (imgW imgH : Int) (pt1 : Pt) (cnt : List IPt)
    (hfalse : fgtKey (bestValueOf cv barcodes cnt) (16 / 25) = false) :
    processContour cv barcodes ids imgW imgH pt1 cnt = none := by
  unfold processContour
  split_ifs with h1 h2 h3
  · rw [hfalse] at h3
    exact Bool.noConfusion h3
  · rfl
  · rfl
  · rfl

/-- C5.  A detection is emitted only when `best_value > 0.8` (on the key
scale, `16/25`); whenever the acceptance test is false — in particular
whenever the best correlation is at most 0.8, or is NaN — the candidate
is silently dropped. -/
theorem C5_threshold_gate (cv : CVPrims) (barcodes : List Vec)
    (ids : List Nat) (imgW imgH : Int) (pt1 : Pt) (cnt : List IPt) :
    (∀ d, processContour cv barcodes ids imgW imgH pt1 cnt = some d →
        fgtKey (bestValueOf cv barcodes cnt) (16 / 25) = true) ∧
      (fgtKey (bestValueOf cv barcodes cnt) (16 / 25) = false →
        processContour cv barcodes ids imgW imgH pt1 cnt = none) :=
  ⟨fun d hd => gate_true_of_some cv barcodes ids imgW imgH pt1 cnt d hd,
    fun hfalse => none_of_gate_false cv barcodes ids imgW imgH pt1 cnt hfalse⟩

lemma foldl_fmax_nan : ∀ xs : List FVal, xs.foldl fmax .nan = .nan := by
  intro xs
  induction xs with
  | nil => rfl
  | cons y ys ih =>
    rw [List.foldl_cons]
    have hstep : fmax .nan y = .nan := by cases y <;> rfl
    rw [hstep]
    exact ih

/-- `np.max` of a column that contains only NaN (or is empty) is NaN. -/
lemma npMax_nan (l : List FVal) (h : ∀ x ∈ l, x = FVal.nan) :
    npMax l = .nan := by
  cases l with
  | nil => rfl
  | cons x xs =>
    have hx : x = FVal.nan := h x (by simp)
    subst hx
    exact foldl_fmax_nan xs

lemma dot_replicate_zero : ∀ k : Nat,
    dot (List.replicate k 0) (List.replicate k 0) = 0 := by
  intro k
  induction k with
  | zero => rfl
  | succ m ih =>
    rw [List.replicate_succ, dot_cons, ih]
    ring

/-- A constant row has zero variance. -/
lemma ss_replicate (n : Nat) (c : ℚ) : ss (List.replicate n c) = 0 := by
  cases n with
  | zero => rfl
  | succ m =>
    have hmean : vmean (List.replicate (m + 1) c) = c := by
      unfold vmean
      rw [List.sum_replicate, List.length_replicate, nsmul_eq_mul]
      exact mul_div_cancel_left₀ c (by exact_mod_cast Nat.succ_ne_zero m)
    have hcenter : center (List.replicate (m + 1) c) =
        List.replicate (m + 1) 0 := by
      unfold center
      rw [List.map_replicate, hmean]
      simp
    unfold ss
    rw [hcenter]
    exact dot_replicate_zero (m + 1)

/-- C10.  When the extracted patch is constant (zero variance), every
row-wise correlation divides 0 by 0 and is NaN for every library entry
(no exception is raised), the NaN best value fails the strict `> 0.8`
test, and the candidate is silently dropped. -/
theorem C10_constant_patch_nan (cv : CVPrims) (barcodes : List Vec)
    (ids : List Nat) (imgW imgH : Int) (pt1 : Pt) (cnt : List IPt)
    (c : ℚ) (n : Nat) (hconst : patchOf cv cnt = List.replicate n c) :
    (∀ b ∈ barcodes, corr2_key b (patchOf cv cnt) = .nan) ∧
      processContour cv barcodes ids imgW imgH pt1 cnt = none := by
  have hnan : ∀ b ∈ barcodes, corr2_key b (patchOf cv cnt) = .nan := by
    intro b _
    rw [hconst]
    unfold corr2_key
    rw [if_pos]
    unfold corrDen
    rw [ss_replicate]
    ring
  refine ⟨hnan, ?_⟩
  have hbest : bestValueOf cv barcodes cnt = .nan := by
    unfold bestValueOf matchBest
    refine npMax_nan _ ?_
    intro x hx
    obtain ⟨b, hb, rfl⟩ := List.mem_map.mp hx
    exact hnan b hb
  refine none_of_gate_false cv barcodes ids imgW imgH pt1 cnt ?_
  rw [hbest]
  rfl

/-! ## A concrete accepted detection, shared by several witnesses -/

/-- Shared concrete contour: an axis-aligned square with oriented area
-100, clear of the frame edge in a 100 x 100 frame. -/
def cntW : List IPt := [(5, 5), (5, 15), (15, 15), (15, 5)]

/-- Shared concrete ID list. -/
def idsW : List Nat := [42, 43]

/-- Concrete primitives that accept `cntW`: constant perimeter 40,
identity polygon approximation, always convex, and a patch equal to the
witness library's row 0. -/
def cvW : CVPrims :=
  { arcLength := fun _ => 40
    approxPolyDP := fun c _ => c
    isContourConvex := fun _ => true
    extractPatch := fun _ => v0W }

lemma contourArea_cntW : contourArea cntW = -100 := by
  norm_num [cntW, contourArea, shoelaceAux, cross]

lemma quadOf_cvW :
    quadOf cvW cntW = [(5, 5), (15, 5), (15, 15), (5, 15)] := by
  norm_num [quadOf, approxOf, cvW, cntW, ratPt, order_points, sortByX,
    sqDist, List.insertionSort, List.orderedInsert]

lemma corr_v0W_v0W : corr2_key v0W v0W = .val 1 := by
  norm_num [corr2_key, corrNum, corrDen, ss, center, vmean, dot, v0W]

lemma corr_v1W_v0W : corr2_key v1W v0W = .val 0 := by
  norm_num [corr2_key, corrNum, corrDen, ss, center, vmean, dot, v0W, v1W]

lemma matchBest_W : matchBest barcodesW v0W = (.val 1, 0) := by
  unfold matchBest
  rw [show barcodesW.map (fun b => corr2_key b v0W) =
      [FVal.val 1, FVal.val 0] from by
    simp [barcodesW, corr_v0W_v0W, corr_v1W_v0W]]
  norm_num [npMax, npArgmax, argmaxGo, fmax, fBeats]

lemma patchOf_cvW : patchOf cvW cntW = v0W := rfl

lemma bestValueOf_cvW : bestValueOf cvW barcodesW cntW = .val 1 := by
  unfold bestValueOf
  rw [patchOf_cvW, matchBest_W]

lemma bestIndexOf_cvW : bestIndexOf cvW barcodesW cntW = 0 := by
  unfold bestIndexOf
  rw [patchOf_cvW, matchBest_W]

lemma passesPrefilter_cvW : passesPrefilter 100 100 cntW := by
  refine ⟨by norm_num [cntW], ?_, by decide⟩
  rw [contourArea_cntW]
  norm_num

lemma passesPolyFilter_cvW : passesPolyFilter cvW cntW := by
  have happrox : approxOf cvW cntW = cntW := rfl
  have harc : cvW.arcLength cntW = 40 := rfl
  refine ⟨?_, ?_, ?_, ?_, ?_⟩
  · rw [happrox]; norm_num [cntW]
  · rw [happrox, contourArea_cntW]; norm_num
  · rfl
  · rw [harc]; norm_num
  · rw [harc, contourArea_cntW]; norm_num

/-- The record emitted at the shared accepted scenario. -/
def detW : Detection :=
  { id := 42, prob := .val 1, x := 10, y := -10, orientVec := (-5, 0) }

/-- Full evaluation of the pipeline at the shared accepted scenario. -/
lemma processContour_cvW :
    processContour cvW barcodesW idsW 100 100 ((0 : ℚ), (0 : ℚ)) cntW =
      some detW := by
  unfold processContour
  rw [if_pos passesPrefilter_cvW, if_pos passesPolyFilter_cvW,
    if_pos (show fgtKey (bestValueOf cvW barcodesW cntW) (16 / 25) = true by
      rw [bestValueOf_cvW]
      norm_num [fgtKey])]
  congr 1
  unfold detectionOf detW
  rw [quadOf_cvW, bestIndexOf_cvW, bestValueOf_cvW]
  norm_num [idsW, ptsMean, midPt]

/-- C1 (evaluation of the code at the failing input).  At a concretely
accepted detection the emitted x column equals the corner mean's x plus
`pt1[0] = 0`, but the emitted y column is the NEGATED corner mean y:
the in-place negation `centroid[1] = -centroid[1]` performed for the
orientation computation happens before the CSV write of line 513, so the
record's y is -10 while the corner mean's y (plus `pt1[1] = 0`) is 10. -/
theorem C1_y_is_negated_mean :
    (processContour cvW barcodesW idsW 100 100 ((0 : ℚ), (0 : ℚ)) cntW).map
        Detection.x = some ((ptsMean (quadOf cvW cntW)).1 + 0) ∧
      (processContour cvW barcodesW idsW 100 100 ((0 : ℚ), (0 : ℚ)) cntW).map
        Detection.y = some (-10) ∧
      (ptsMean (quadOf cvW cntW)).2 + 0 = 10 ∧
      (processContour cvW barcodesW idsW 100 100 ((0 : ℚ), (0 : ℚ)) cntW).map
        Detection.y ≠ some ((ptsMean (quadOf cvW cntW)).2 + 0) := by
  rw [processContour_cvW, quadOf_cvW]
  norm_num [detW, ptsMean]

/-- Primitive instances identical to `cvW` except that the extracted
patch correlates poorly (best correlation 0) with both library rows. -/
def cvLowW : CVPrims :=
  { arcLength := fun _ => 40
    approxPolyDP := fun c _ => c
    isContourConvex := fun _ => true
    extractPatch := fun _ => [1, 0, 1, 0] }

lemma corr_v0W_low : corr2_key v0W [1, 0, 1, 0] = .val (-1) := by
  norm_num [corr2_key, corrNum, corrDen, ss, center, vmean, dot, v0W]

lemma corr_v1W_low : corr2_key v1W [1, 0, 1, 0] = .val 0 := by
  norm_num [corr2_key, corrNum, corrDen, ss, center, vmean, dot, v1W]

lemma bestValueOf_cvLowW : bestValueOf cvLowW barcodesW cntW = .val 0 := by
  unfold bestValueOf matchBest
  have h0 : patchOf cvLowW cntW = [1, 0, 1, 0] := rfl
  rw [h0]
  rw [show barcodesW.map (fun b => corr2_key b [1, 0, 1, 0]) =
      [FVal.val (-1), FVal.val 0] from by
    simp [barcodesW, corr_v0W_low, corr_v1W_low]]
  norm_num [npMax, fmax]

/-- Witness for `C5_threshold_gate`: a best correlation of 0 fails the
threshold and the candidate is dropped. -/
theorem C5_witness :
    processContour cvLowW barcodesW idsW 100 100 ((0 : ℚ), (0 : ℚ)) cntW =
      none :=
  (C5_threshold_gate cvLowW barcodesW idsW 100 100 ((0 : ℚ), (0 : ℚ))
      cntW).2 (by
    rw [bestValueOf_cvLowW]
    norm_num [fgtKey])

/-- Primitive instances identical to `cvW` except that the extracted
patch is constant. -/
def cvConstW : CVPrims :=
  { arcLength := fun _ => 40
    approxPolyDP := fun c _ => c
    isContourConvex := fun _ => true
    extractPatch := fun _ => List.replicate 4 5 }

/-- Witness for `C10_constant_patch_nan` at the constant patch. -/
theorem C10_witness :
    (∀ b ∈ barcodesW, corr2_key b (patchOf cvConstW cntW) = .nan) ∧
      processContour cvConstW barcodesW idsW 100 100 ((0 : ℚ), (0 : ℚ)) cntW =
        none :=
  C10_constant_patch_nan cvConstW barcodesW idsW 100 100 ((0 : ℚ), (0 : ℚ))
    cntW 5 4 rfl

/-! ## Orientation angle (`angle`, lines 180-210, used at lines 471-487) -/

/-- `angle(vector)` (lines 180-210):
`np.degrees(np.arctan2(vector[1], vector[0]) % (2*np.pi))`.
`np.arctan2 y x` is `Complex.arg ⟨x, y⟩ ∈ (-π, π]`; the Python float `%`
with the positive modulus `2π` adds `2π` exactly when the argument is
negative.  For finite inputs `arctan2` never yields NaN, so the
function's `isnan` branch (which dereferences undefined names and would
crash) is unreachable; `degrees = True` converts to degrees. -/
noncomputable def angle (v : Pt) : ℝ :=
  (if Complex.arg ⟨(v.1 : ℝ), (v.2 : ℝ)⟩ < 0 then
      Complex.arg ⟨(v.1 : ℝ), (v.2 : ℝ)⟩ + 2 * Real.pi
    else Complex.arg ⟨(v.1 : ℝ), (v.2 : ℝ)⟩) * (180 / Real.pi)

/-- The orientation column of the record (line 487 / line 513):
`vector_angle = angle(vector)`. -/
noncomputable def Detection.orientation (d : Detection) : ℝ :=
  angle d.orientVec

lemma angle_nonneg (v : Pt) : 0 ≤ angle v := by
  unfold angle
  have hpi := Real.pi_pos
  have harg := Complex.neg_pi_lt_arg (⟨(v.1 : ℝ), (v.2 : ℝ)⟩ : ℂ)
  apply mul_nonneg
  · split_ifs with h
    · linarith
    · linarith
  · positivity

lemma angle_lt_360 (v : Pt) : angle v < 360 := by
  unfold angle
  have hpi := Real.pi_pos
  have harg := Complex.arg_le_pi (⟨(v.1 : ℝ), (v.2 : ℝ)⟩ : ℂ)
  have hlt :
      (if Complex.arg ⟨(v.1 : ℝ), (v.2 : ℝ)⟩ < 0 then
          Complex.arg ⟨(v.1 : ℝ), (v.2 : ℝ)⟩ + 2 * Real.pi
        else Complex.arg ⟨(v.1 : ℝ), (v.2 : ℝ)⟩) < 2 * Real.pi := by
    split_ifs with h
    · linarith
    · linarith
  calc (if Complex.arg ⟨(v.1 : ℝ), (v.2 : ℝ)⟩ < 0 then
          Complex.arg ⟨(v.1 : ℝ), (v.2 : ℝ)⟩ + 2 * Real.pi
        else Complex.arg ⟨(v.1 : ℝ), (v.2 : ℝ)⟩) * (180 / Real.pi) <
      2 * Real.pi * (180 / Real.pi) :=
        mul_lt_mul_of_pos_right hlt (by positivity)
    _ = 360 := by
        field_simp
        ring

lemma angle_zero_vec : angle ((0 : ℚ), (0 : ℚ)) = 0 := by
  unfold angle
  have h0 : (⟨((((0 : ℚ), (0 : ℚ)).1 : ℚ) : ℝ),
      ((((0 : ℚ), (0 : ℚ)).2 : ℚ) : ℝ)⟩ : ℂ) = 0 := by
    apply Complex.ext <;> simp
  rw [h0, Complex.arg_zero]
  simp

/-- Second definition, following the claim's words (C8): the orientation
vector is the vector from the quad centroid to the midpoint of the
reference edge selected by `rotationIndex mod 4` — 3 selects the top
edge (tl,tr), 0 the left edge (tl,bl), 1 the bottom edge (br,bl), 2 the
right edge (br,tr) — in a coordinate frame with the y-axis inverted
before the `atan2`. -/
def specOrientVec (pts : List Pt) (rotIdx : Nat) : Pt :=
  let c := ptsMean pts
  let tl := pts.getD 0 (0, 0)
  let tr := pts.getD 1 (0, 0)
  let br := pts.getD 2 (0, 0)
  let bl := pts.getD 3 (0, 0)
  let m :=
    match rotIdx % 4 with
    | 3 => midPt tl tr
    | 0 => midPt tl bl
    | 1 => midPt br bl
    | _ => midPt br tr
  (m.1 - c.1, -m.2 - -c.2)

/-- C8.  For every accepted detection the emitted orientation is the
`atan2` (normalized into [0, 360) degrees) of exactly the vector the
claim describes — centroid to reference-edge midpoint, edge selected by
`best_index mod 4`, y-axis inverted — and it is 0 degrees when that
vector is zero length. -/
theorem C8_orientation (cv : CVPrims) (barcodes : List Vec)
    (ids : List Nat) (imgW imgH : Int) (pt1 : Pt) (cnt : List IPt)
    (d : Detection)
    (hd : processContour cv barcodes ids imgW imgH pt1 cnt = some d) :
    d.orientVec = specOrientVec (quadOf cv cnt) (bestIndexOf cv barcodes cnt) ∧
      d.orientation =
        angle (specOrientVec (quadOf cv cnt) (bestIndexOf cv barcodes cnt)) ∧
      0 ≤ d.orientation ∧ d.orientation < 360 ∧
      (d.orientVec = ((0 : ℚ), (0 : ℚ)) → d.orientation = 0) := by
  have hdet : d = detectionOf cv barcodes ids pt1 cnt := by
    unfold processContour at hd
    split_ifs at hd with h1 h2 h3
    · injection hd with h
      exact h.symm
  subst hdet
  have hvec : (detectionOf cv barcodes ids pt1 cnt).orientVec =
      specOrientVec (quadOf cv cnt) (bestIndexOf cv barcodes cnt) := by
    have hr : bestIndexOf cv barcodes cnt % 4 = 0 ∨
        bestIndexOf cv barcodes cnt % 4 = 1 ∨
        bestIndexOf cv barcodes cnt % 4 = 2 ∨
        bestIndexOf cv barcodes cnt % 4 = 3 := by omega
    rcases hr with h | h | h | h <;>
      simp [detectionOf, specOrientVec, h, midPt]
  refine ⟨hvec, by rw [Detection.orientation, hvec], ?_, ?_, ?_⟩
  · exact angle_nonneg _
  · exact angle_lt_360 _
  · intro h0
    rw [Detection.orientation, h0]
    exact angle_zero_vec

/-- Witness for `C8_orientation` at the shared accepted scenario (the
detection's orientation vector is (-5, 0), whose angle is 180 degrees). -/
theorem C8_witness :
    detW.orientVec =
        specOrientVec (quadOf cvW cntW) (bestIndexOf cvW barcodesW cntW) ∧
      detW.orientation =
        angle (specOrientVec (quadOf cvW cntW) (bestIndexOf cvW barcodesW cntW)) ∧
      0 ≤ detW.orientation ∧ detW.orientation < 360 ∧
      (detW.orientVec = ((0 : ℚ), (0 : ℚ)) → detW.orientation = 0) :=
  C8_orientation cvW barcodesW idsW 100 100 ((0 : ℚ), (0 : ℚ)) cntW detW
    processContour_cvW

/-! ## Per-frame pipeline up to contour extraction
(`get_grayscale`, `get_threshold`, `get_contours`, lines 212-301,
called at lines 385-391) -/

/-- A BGR color frame: rows of (blue, green, red) byte triples. -/
abbrev ColorImg : Type := List (List (Nat × Nat × Nat))

/-- A single-channel image: rows of byte values. -/
abbrev GrayImg : Type := List (List Nat)

/-- `crop(src, pt1, pt2)` (lines 121-127):
`src[pt1[1]:pt2[1], pt1[0]:pt2[0]]`. -/
def cropImg (src : ColorImg) (pt1 pt2 : Nat × Nat) : ColorImg :=
  ((src.drop pt1.2).take (pt2.2 - pt1.2)).map
    (fun row => (row.drop pt1.1).take (pt2.1 - pt1.1))

/-- `get_grayscale(image, channel='green')` (lines 212-249): the green
channel of the BGR frame.  (The input-shape assertions of the function
hold by construction here: the embedded frame type is 3-channel.) -/
def get_grayscale_green (img : ColorImg) : GrayImg :=
  img.map (List.map (fun p => p.2.1))

/-- Pixel lookup with `BORDER_REPLICATE` clamping, as used by the box
filter behind `cv2.adaptiveThreshold`. -/
def pixAt (img : GrayImg) (i j : Int) : Nat :=
  (img.getD (max 0 (min i ((img.length : Int) - 1))).toNat []).getD
    (max 0 (min j (((img.headD []).length : Int) - 1))).toNat 0

/-- The rounded mean of the `bs x bs` block centred at `(i, j)` (border
replicated): the threshold base of `ADAPTIVE_THRESH_MEAN_C`. -/
def boxMean (img : GrayImg) (bs : Nat) (i j : Nat) : Nat :=
  (((List.range bs).map (fun (di : Nat) =>
    ((List.range bs).map (fun (dj : Nat) =>
      pixAt img ((i : Int) + (di : Int) - ((bs / 2 : Nat) : Int))
        ((j : Int) + (dj : Int) - ((bs / 2 : Nat) : Int)))).sum)).sum
    + bs * bs / 2) / (bs * bs)

/-- `get_threshold(gray, block_size, offset)` (lines 251-280):
`cv2.adaptiveThreshold(gray, 255, ADAPTIVE_THRESH_MEAN_C, THRESH_BINARY,
block_size, offset)`: output 255 where `src > mean - offset`, else 0. -/
def get_threshold (img : GrayImg) (blockSize : Nat) (offset : Int) :
    GrayImg :=
  (List.range img.length).map (fun (i : Nat) =>
    (List.range (img.headD []).length).map (fun (j : Nat) =>
      if (pixAt img (i : Int) (j : Int) : Int) >
          (boxMean img blockSize i j : Int) - offset
      then 255 else 0))

/-- Python-level error surfaced by the frame pipeline. -/
inductive PyErr : Type
  | assertionError : PyErr
deriving DecidableEq

/-- `get_contours(threshold_image)` (lines 282-301).  The assertion
`len(set([0, 255]) - set(np.unique(threshold_image))) == 0` demands that
BOTH levels 0 and 255 occur among the image's values; only then does the
cv2 contour trace (`findContours`, the external primitive `find`) run. -/
def get_contours (find : GrayImg → List (List IPt)) (img : GrayImg) :
    Except PyErr (List (List IPt)) :=
  if (img.any fun row => row.contains 0) ∧
      (img.any fun row => row.contains 255)
  then .ok (find img)
  else .error .assertionError

/-- Lines 385-391: the per-frame pipeline from the captured frame to the
contour list: crop (full frame: `pt1 = (0,0)`, `pt2 = (w,h)`),
green-channel grayscale, `cv2.GaussianBlur(gray, (1,1), 1)` (a
single-tap kernel, the identity), adaptive threshold with
`block_size = 201`, `offset = -25`, then `get_contours`. -/
def frameContours (find : GrayImg → List (List IPt)) (img : ColorImg)
    (w h : Nat) : Except PyErr (List (List IPt)) :=
  get_contours find
    (get_threshold (get_grayscale_green (cropImg img (0, 0) (w, h))) 201 (-25))

lemma getD_replicate {α : Type} (n : Nat) (x d : α) (i : Nat) (h : i < n) :
    (List.replicate n x).getD i d = x := by
  rw [List.getD_eq_getElem _ _ (by simpa using h)]
  simp

lemma pixAt_uniform (hgt wdt c : Nat) (hh : 0 < hgt) (hw : 0 < wdt)
    (i j : Int) :
    pixAt (List.replicate hgt (List.replicate wdt c)) i j = c := by
  unfold pixAt
  have h1 : (List.replicate hgt (List.replicate wdt c)).length = hgt :=
    List.length_replicate _ _
  have h2 : (List.replicate hgt (List.replicate wdt c)).headD [] =
      List.replicate wdt c := by
    cases hgt with
    | zero => omega
    | succ m => simp [List.replicate_succ]
  rw [h1, h2, List.length_replicate]
  have hile : max 0 (min i ((hgt : Int) - 1)) ≤ (hgt : Int) - 1 :=
    max_le (by omega) (min_le_right _ _)
  have hige : (0 : Int) ≤ max 0 (min i ((hgt : Int) - 1)) := le_max_left _ _
  have hjle : max 0 (min j ((wdt : Int) - 1)) ≤ (wdt : Int) - 1 :=
    max_le (by omega) (min_le_right _ _)
  have hjge : (0 : Int) ≤ max 0 (min j ((wdt : Int) - 1)) := le_max_left _ _
  rw [getD_replicate hgt (List.replicate wdt c) [] _ (by omega)]
  exact getD_replicate wdt c 0 _ (by omega)

lemma range_map_const_sum (n c : Nat) :
    ((List.range n).map (fun _ => c)).sum = n * c := by
  induction n with
  | zero => simp
  | succ m ih =>
    rw [List.range_succ, List.map_append, List.sum_append, ih]
    simp [Nat.succ_mul]

lemma boxMean_uniform (hgt wdt c bs : Nat) (hh : 0 < hgt) (hw : 0 < wdt)
    (hbs : 0 < bs) (i j : Nat) :
    boxMean (List.replicate hgt (List.replicate wdt c)) bs i j = c := by
  unfold boxMean
  have hinner : ∀ di : Nat,
      ((List.range bs).map (fun (dj : Nat) =>
        pixAt (List.replicate hgt (List.replicate wdt c))
          ((i : Int) + (di : Int) - ((bs / 2 : Nat) : Int))
          ((j : Int) + (dj : Int) - ((bs / 2 : Nat) : Int)))).sum = bs * c := by
    intro di
    rw [List.map_congr_left
      (fun dj _ => pixAt_uniform hgt wdt c hh hw _ _)]
    exact range_map_const_sum bs c
  rw [List.map_congr_left (fun di _ => hinner di), range_map_const_sum]
  have hbb : 0 < bs * bs := Nat.mul_pos hbs hbs
  have harr : bs * (bs * c) + bs * bs / 2 = bs * bs / 2 + bs * bs * c := by
    ring
  rw [harr, Nat.add_mul_div_left _ _ hbb,
    Nat.div_eq_of_lt (Nat.div_lt_self hbb (by norm_num))]
  omega

/-- The adaptive threshold of a uniform gray image with `offset = -25`
is the all-zero image: no pixel exceeds its block mean plus 25. -/
lemma get_threshold_uniform (hgt wdt c : Nat) (hh : 0 < hgt)
    (hw : 0 < wdt) :
    get_threshold (List.replicate hgt (List.replicate wdt c)) 201 (-25) =
      List.replicate hgt (List.replicate wdt 0) := by
  unfold get_threshold
  have h1 : (List.replicate hgt (List.replicate wdt c)).length = hgt :=
    List.length_replicate _ _
  have h2 : (List.replicate hgt (List.replicate wdt c)).headD [] =
      List.replicate wdt c := by
    cases hgt with
    | zero => omega
    | succ m => simp [List.replicate_succ]
  rw [h1, h2, List.length_replicate]
  have hcell : ∀ i j : Nat,
      (if (pixAt (List.replicate hgt (List.replicate wdt c))
            (i : Int) (j : Int) : Int) >
          (boxMean (List.replicate hgt (List.replicate wdt c)) 201 i j : Int)
            - (-25)
        then (255 : Nat) else 0) = 0 := by
    intro i j
    rw [pixAt_uniform hgt wdt c hh hw,
      boxMean_uniform hgt wdt c 201 hh hw (by norm_num)]
    rw [if_neg (by omega)]
  rw [List.map_congr_left (fun i _ => by
    rw [List.map_congr_left (fun j _ => hcell i j), List.map_const'])]
  rw [List.map_const']
  simp

/-- Concrete uniform frame: 8 x 8, every pixel BGR (100, 100, 100) — a
frame containing no markers (indeed no contours at all). -/
def uniformFrameW : ColorImg :=
  List.replicate 8 (List.replicate 8 (100, 100, 100))

/-- C2 (evaluation of the code at the failing input).  On a uniform
marker-free frame the adaptive threshold (block mean 100, offset -25,
so threshold 125) outputs the all-zero image; the level 255 then does
not occur, and the assertion of `get_contours` — which requires BOTH 0
and 255 to be present — fails, so the per-frame pipeline raises
AssertionError instead of completing with zero detections, whatever the
contour tracer `find` would have returned. -/
theorem C2_uniform_frame_raises (find : GrayImg → List (List IPt)) :
    frameContours find uniformFrameW 8 8 = .error .assertionError := by
  unfold frameContours
  have hcrop : cropImg uniformFrameW (0, 0) (8, 8) = uniformFrameW := rfl
  have hgray : get_grayscale_green uniformFrameW =
      List.replicate 8 (List.replicate 8 100) := rfl
  rw [hcrop, hgray,
    get_threshold_uniform 8 8 100 (by norm_num) (by norm_num)]
  unfold get_contours
  rw [if_neg]
  intro hcon
  have h255 := hcon.2
  revert h255
  decide

/-! ## Pattern-library construction (`add_border`, lines 86-119,
called at lines 318-326) -/

/-- Errors surfaced during library construction.  `configurationError`
names the spec's `ConfigurationError`; the code contains no such
validation and, as proved below, never produces it. -/
inductive NPErr : Type
  | valueError : NPErr
  | configurationError : NPErr
deriving DecidableEq

/-- Rows of a reshaped array: row `i` is elements `i*c .. i*c + c - 1`. -/
def chunkRows (v : List ℚ) (r c : Nat) : List (List ℚ) :=
  (List.range r).map (fun i => (v.drop (i * c)).take c)

/-- `np.reshape` semantics: a negative dimension raises ValueError
("negative dimensions are not allowed"), as does a size mismatch
("cannot reshape array of size n into shape (r, c)"). -/
def npReshape (v : List ℚ) (r c : Int) : Except NPErr (List (List ℚ)) :=
  if r < 0 ∨ c < 0 then .error .valueError
  else if r.toNat * c.toNat ≠ v.length then .error .valueError
  else .ok (chunkRows v r.toNat c.toNat)

/-- A padded matrix of `fill` with `inner` written into the interior —
the slice assignments
`white_border[w:h+w, w:w+w] = tag` and
`black_border[b:h+2w+b, b:w+2w+b] = white_border`. -/
def borderMat (inner : List (List ℚ)) (pad : Nat) (fill : ℚ) :
    List (List ℚ) :=
  (List.range (inner.length + 2 * pad)).map (fun (i : Nat) =>
    (List.range ((inner.headD []).length + 2 * pad)).map (fun (j : Nat) =>
      if pad ≤ i ∧ i < inner.length + pad ∧ pad ≤ j ∧
          j < (inner.headD []).length + pad
      then (inner.getD (i - pad) []).getD (j - pad) fill
      else fill))

/-- `add_border(tag, tag_shape, white_width, black_width)`
(lines 86-119): reshape the flat tag to `tag_shape`, surround it with a
white (ones) border of width `white_width`, then with a black (zeros)
border of width `black_width`; return the bordered shape and the
flattened bordered tag. -/
def add_border (tag : List ℚ) (tagShape : Int × Int)
    (whiteWidth blackWidth : Nat) :
    Except NPErr ((Nat × Nat) × List ℚ) :=
  match npReshape tag tagShape.1 tagShape.2 with
  | .error e => .error e
  | .ok t =>
    let whiteB := borderMat t whiteWidth 1
    let blackB := borderMat whiteB blackWidth 0
    .ok ((blackB.length, (blackB.headD []).length), blackB.flatten)

/-- Lines 320-325, one barcode of the library:
`add_border(barcode, tagShape, white_width = 1, black_width = 0)`,
reshape back to the bordered shape, `cv2.resize(..., barcode_size,
INTER_AREA)` — an external primitive, total for positive target sizes
(cv2 resamples, and does not raise, even when the target exceeds the
source) — then flatten. -/
def buildBarcode (resize : List (List ℚ) → Nat × Nat → List (List ℚ))
    (tagShape : Int × Int) (barcodeSize : Nat × Nat) (tag : List ℚ) :
    Except NPErr (List ℚ) :=
  match add_border tag tagShape 1 0 with
  | .error e => .error e
  | .ok tb => .ok ((resize (chunkRows tb.2 tb.1.1 tb.1.2) barcodeSize).flatten)

/-- `npReshape` fails only with ValueError. -/
lemma npReshape_error_eq (v : List ℚ) (r c : Int) (e : NPErr)
    (h : npReshape v r c = .error e) : e = .valueError := by
  unfold npReshape at h
  split_ifs at h
  · injection h with h
    exact h.symm
  · injection h with h
    exact h.symm

/-- Identity stand-in for `cv2.resize` in the concrete instances. -/
def resizeIdW : List (List ℚ) → Nat × Nat → List (List ℚ) :=
  fun m _ => m

/-- C9 (counterexample).  The claim "construction fails with
ConfigurationError whenever the base shape has a non-positive dimension
or the target resolution exceeds the bordered size" is false on the
code: at base shape (0, 5) construction fails with the numpy ValueError
(not a ConfigurationError, which the code cannot produce), and at
target resolution (100, 100), far above the bordered size 7 x 7,
construction succeeds instead of failing. -/
theorem C9_counterexample :
    buildBarcode resizeIdW (0, 5) (7, 7) (List.replicate 25 0) =
        .error .valueError ∧
      buildBarcode resizeIdW (0, 5) (7, 7) (List.replicate 25 0) ≠
        .error .configurationError ∧
      (buildBarcode resizeIdW (5, 5) (100, 100) (List.replicate 25 0)).isOk =
        true := by
  refine ⟨rfl, ?_, rfl⟩
  intro h
  rw [show buildBarcode resizeIdW (0, 5) (7, 7) (List.replicate 25 0) =
      .error .valueError from rfl] at h
  injection h with h
  exact NPErr.noConfusion h

/-- C9 (amended).  Library construction never raises the spec's
ConfigurationError: a non-positive base-shape dimension (with a
non-empty flat tag) makes numpy's reshape raise ValueError instead, and
no parameter combination at all — in particular no oversized target
resolution — produces a ConfigurationError. -/
theorem C9_no_configuration_error :
    (∀ (resize : List (List ℚ) → Nat × Nat → List (List ℚ))
        (tagShape : Int × Int) (bsz : Nat × Nat) (tag : List ℚ),
      0 < tag.length → (tagShape.1 ≤ 0 ∨ tagShape.2 ≤ 0) →
      buildBarcode resize tagShape bsz tag = .error .valueError) ∧
      (∀ (resize : List (List ℚ) → Nat × Nat → List (List ℚ))
          (tagShape : Int × Int) (bsz : Nat × Nat) (tag : List ℚ),
        buildBarcode resize tagShape bsz tag ≠ .error .configurationError) := by
  constructor
  · intro resize tagShape bsz tag hlen hshape
    have hres : npReshape tag tagShape.1 tagShape.2 = .error .valueError := by
      unfold npReshape
      by_cases hneg : tagShape.1 < 0 ∨ tagShape.2 < 0
      · rw [if_pos hneg]
      · rw [if_neg hneg, if_pos]
        have h1 : tagShape.1.toNat = 0 ∨ tagShape.2.toNat = 0 := by omega
        rcases h1 with h1 | h1 <;> rw [h1] <;> omega
    unfold buildBarcode add_border
    rw [hres]
  · intro resize tagShape bsz tag hcon
    unfold buildBarcode add_border at hcon
    cases hres : npReshape tag tagShape.1 tagShape.2 with
    | error e =>
      rw [hres] at hcon
      simp only [] at hcon
      injection hcon with hcon
      rw [npReshape_error_eq _ _ _ _ hres] at hcon
      exact NPErr.noConfusion hcon
    | ok t =>
      rw [hres] at hcon
      simp only [] at hcon
      exact Except.noConfusion hcon

/-- Witness for `C9_no_configuration_error` at base shape (0, 5) with a
25-element tag. -/
theorem C9_witness :
    buildBarcode resizeIdW (0, 5) (7, 7) (List.replicate 25 0) =
      .error .valueError :=
  C9_no_configuration_error.1 resizeIdW (0, 5) (7, 7) (List.replicate 25 0)
    (by norm_num) (Or.inl (by norm_num))

end Decode
